import Mathlib

/-!
Shallow embedding of the PCR thermocycler simulator core
(thermal_model.py, pid_controller.py, fuzzy_controller.py, pcr_simulator.py).

Real-valued quantities (Python floats) are modelled as rationals (`ℚ`);
all definitions are executable and translated clause-by-clause from the
source.  NumPy's `linspace(..., dtype=int)` truncation is modelled by
natural-number division, and the simulator's `while` loop is modelled by
structural recursion on the fuel `num_steps - step`, which is exactly the
number of iterations the loop guard `step < num_steps` still allows.
-/

/-! ## Thermal model (thermal_model.py) -/

/-- Configuration fields of `ThermalModel` that are set in `__init__` and
never mutated by `update`/`reset`. -/
structure ThermalConfig where
  heat_capacity : ℚ
  heating_power : ℚ
  cooling_power : ℚ
  heat_loss_coef : ℚ
  ambient_temp : ℚ

/-- Source `ThermalModel.calculate_heat_flow` (thermal_model.py:64-90):
clamp the requested power to the heating/cooling limits and subtract the
ambient loss.  `T` is the current temperature state. -/
def calculate_heat_flow (tc : ThermalConfig) (T control_output : ℚ) : ℚ :=
  let applied_power :=
    if control_output > 0 then min control_output tc.heating_power
    else max control_output (-tc.cooling_power)
  let heat_loss := tc.heat_loss_coef * (T - tc.ambient_temp)
  applied_power - heat_loss

/-- Source `ThermalModel.get_derivative` (thermal_model.py:92-108). -/
def get_derivative (tc : ThermalConfig) (T control_output : ℚ) : ℚ :=
  calculate_heat_flow tc T control_output / tc.heat_capacity

/-- Source `ThermalModel.update` (thermal_model.py:110-124): explicit Euler
step; returns the new temperature (which the source also stores). -/
def thermal_update (tc : ThermalConfig) (T control_output dt : ℚ) : ℚ :=
  T + get_derivative tc T control_output * dt

/-- Source `ThermalModel.reset` (thermal_model.py:126-135): `None` means
reset to ambient temperature. -/
def thermal_reset (tc : ThermalConfig) (initial_temp : Option ℚ) : ℚ :=
  match initial_temp with
  | none => tc.ambient_temp
  | some t => t

/-! ## PID controller (pid_controller.py) -/

/-- Configuration fields of `PIDController` (set in `__init__`, mutated only
by `set_output_limits`, never by `update`/`reset`). -/
structure PIDConfig where
  kp : ℚ
  ti : ℚ
  td : ℚ
  output_min : ℚ
  output_max : ℚ

/-- Mutable state of `PIDController` (the fields `update` and `reset`
write). -/
structure PIDState where
  integral : ℚ
  prev_error : ℚ
  prev_derivative : ℚ
  p_term : ℚ
  i_term : ℚ
  d_term : ℚ

/-- Source `error = setpoint - measurement` (pid_controller.py:68). -/
def pid_error (setpoint measurement : ℚ) : ℚ := setpoint - measurement

/-- Source `self.integral += error * dt` (pid_controller.py:75). -/
def pid_new_integral (s : PIDState) (error dt : ℚ) : ℚ := s.integral + error * dt

/-- Source I-term computation (pid_controller.py:78-81): disabled when
`ti ≤ 0`. -/
def pid_i_term (cfg : PIDConfig) (integral : ℚ) : ℚ :=
  if cfg.ti > 0 then integral / cfg.ti else 0

/-- Source filtered derivative (pid_controller.py:86-89), first-order
low-pass with `alpha = 0.5`; meaningful only when `dt > 0`. -/
def pid_filtered_derivative (s : PIDState) (error dt : ℚ) : ℚ :=
  let derivative := (error - s.prev_error) / dt
  let alpha : ℚ := 1/2
  alpha * derivative + (1 - alpha) * s.prev_derivative

/-- Source D-term (pid_controller.py:85-93): `0` when `dt ≤ 0`. -/
def pid_d_term (cfg : PIDConfig) (s : PIDState) (error dt : ℚ) : ℚ :=
  if dt > 0 then cfg.td * pid_filtered_derivative s error dt else 0

/-- Source `self.prev_derivative` update (pid_controller.py:91): only
written when `dt > 0`. -/
def pid_new_prev_derivative (s : PIDState) (error dt : ℚ) : ℚ :=
  if dt > 0 then pid_filtered_derivative s error dt else s.prev_derivative

/-- Source raw (pre-clamp) output `kp * (p_term + i_term + d_term)`
(pid_controller.py:96). -/
def pid_raw_output (cfg : PIDConfig) (s : PIDState) (setpoint measurement dt : ℚ) : ℚ :=
  cfg.kp * (pid_error setpoint measurement
    + pid_i_term cfg (pid_new_integral s (pid_error setpoint measurement) dt)
    + pid_d_term cfg s (pid_error setpoint measurement) dt)

/-- Source output clamp `max(output_min, min(output, output_max))`
(pid_controller.py:99). -/
def clampO (cfg : PIDConfig) (x : ℚ) : ℚ :=
  max cfg.output_min (min x cfg.output_max)

/-- Source `PIDController.update` (pid_controller.py:55-112), returning the
clamped output together with the updated mutable state. -/
def pid_update (cfg : PIDConfig) (s : PIDState) (setpoint measurement dt : ℚ) :
    ℚ × PIDState :=
  let error := pid_error setpoint measurement
  let p_term := error
  let integral := pid_new_integral s error dt
  let i_term := pid_i_term cfg integral
  let d_term := pid_d_term cfg s error dt
  let output := cfg.kp * (p_term + i_term + d_term)
  let output_clamped := clampO cfg output
  if output ≠ output_clamped ∧ cfg.ti > 0 then
    let max_i_term := output_clamped / cfg.kp - p_term - d_term
    (output_clamped,
      ⟨max_i_term * cfg.ti, error, pid_new_prev_derivative s error dt,
        p_term, max_i_term, d_term⟩)
  else
    (output_clamped,
      ⟨integral, error, pid_new_prev_derivative s error dt,
        p_term, i_term, d_term⟩)

/-- Guard of the anti-windup back-calculation branch
(pid_controller.py:102), the only place dividing by `kp`. -/
def pid_antiwindup_triggered (cfg : PIDConfig) (s : PIDState)
    (setpoint measurement dt : ℚ) : Prop :=
  pid_raw_output cfg s setpoint measurement dt
      ≠ clampO cfg (pid_raw_output cfg s setpoint measurement dt)
    ∧ cfg.ti > 0

/-- Source `PIDController.reset` (pid_controller.py:114-121). -/
def pid_reset : PIDState := ⟨0, 0, 0, 0, 0, 0⟩

/-! ## Shared clamp bounds -/

/-- A value clamped by `max lo (min x hi)` lies in `[lo, hi]` whenever
`lo ≤ hi`. -/
theorem clamp_mem (lo hi x : ℚ) (h : lo ≤ hi) :
    lo ≤ max lo (min x hi) ∧ max lo (min x hi) ≤ hi :=
  ⟨le_max_left _ _, max_le h (min_le_right _ _)⟩

/-- Unfolded first component of `pid_update`: it is the clamped raw
output. -/
theorem pid_update_fst (cfg : PIDConfig) (s : PIDState) (sp m dt : ℚ) :
    (pid_update cfg s sp m dt).1 = clampO cfg (pid_raw_output cfg s sp m dt) := by
  unfold pid_update pid_raw_output
  dsimp only
  split <;> rfl

/-! ## Fuzzy PD controller (fuzzy_controller.py) -/

/-- Configuration fields of `FuzzyController` (the discretized universe is
built from the default constructor arguments, see `u_universe`). -/
structure FuzzyConfig where
  output_min : ℚ
  output_max : ℚ

/-- Source `np.arange(universe_min, universe_max, universe_step)` with the
default arguments `(-1.0, 1.0, 0.01)` (fuzzy_controller.py:25): the 200
points `-1.00, -0.99, …, 0.99`, idealized to exact rational steps. -/
def u_universe : List ℚ :=
  (List.range 200).map (fun i : ℕ => -1 + (i : ℚ) / 100)

/-- Source `FuzzyController.trapmf` (fuzzy_controller.py:38-47), with the
branch order of the source preserved. -/
def trapmf (x a b c d : ℚ) : ℚ :=
  if x ≤ a ∨ x ≥ d then 0
  else if b ≤ x ∧ x ≤ c then 1
  else if a < x ∧ x < b then (x - a) / (b - a)
  else (d - x) / (d - c)

/-- Linguistic labels for the error fuzzy sets (and the output sets, which
use the same five names). -/
inductive ELabel
  | NB | NS | Z | PS | PB
deriving DecidableEq

/-- Linguistic labels for the change-of-error fuzzy sets. -/
inductive CLabel
  | N | Z | P
deriving DecidableEq

/-- Source `FuzzyController.fuzzify_error` (fuzzy_controller.py:50-57). -/
def fuzzify_error (e : ℚ) : ELabel → ℚ
  | ELabel.NB => trapmf e (-100) (-100) (-60) (-40)
  | ELabel.NS => trapmf e (-60) (-30) (-15) 0
  | ELabel.Z => trapmf e (-10) (-2) 2 10
  | ELabel.PS => trapmf e 0 15 30 60
  | ELabel.PB => trapmf e 40 60 100 100

/-- Source `FuzzyController.fuzzify_ce` (fuzzy_controller.py:60-65). -/
def fuzzify_ce (ce : ℚ) : CLabel → ℚ
  | CLabel.N => trapmf ce (-100) (-80) (-40) 0
  | CLabel.Z => trapmf ce (-10) (-1) 1 10
  | CLabel.P => trapmf ce 0 40 80 100

/-- Source `FuzzyController.output_sets` (fuzzy_controller.py:68-75). -/
def output_sets (u : ℚ) : ELabel → ℚ
  | ELabel.NB => trapmf u (-1) (-1) (-8/10) (-5/10)
  | ELabel.NS => trapmf u (-8/10) (-5/10) (-2/10) 0
  | ELabel.Z => trapmf u (-11/100) (-1/100) (1/100) (11/100)
  | ELabel.PS => trapmf u 0 (2/10) (5/10) (8/10)
  | ELabel.PB => trapmf u (5/10) (8/10) 1 1

/-- Source `FuzzyController.rules` (fuzzy_controller.py:78-99); the source
method ignores its two arguments and returns this fixed 15-rule table. -/
def fuzzy_rules : List (ELabel × CLabel × ELabel) :=
  [ (ELabel.PB, CLabel.P, ELabel.PB),
    (ELabel.PB, CLabel.Z, ELabel.PB),
    (ELabel.PB, CLabel.N, ELabel.PS),
    (ELabel.PS, CLabel.P, ELabel.PB),
    (ELabel.PS, CLabel.Z, ELabel.PS),
    (ELabel.PS, CLabel.N, ELabel.Z),
    (ELabel.Z, CLabel.P, ELabel.PS),
    (ELabel.Z, CLabel.Z, ELabel.Z),
    (ELabel.Z, CLabel.N, ELabel.NS),
    (ELabel.NS, CLabel.P, ELabel.Z),
    (ELabel.NS, CLabel.Z, ELabel.NS),
    (ELabel.NS, CLabel.N, ELabel.NB),
    (ELabel.NB, CLabel.P, ELabel.NS),
    (ELabel.NB, CLabel.Z, ELabel.NB),
    (ELabel.NB, CLabel.N, ELabel.NB) ]

/-- Source `FuzzyController.infer` (fuzzy_controller.py:102-118): MIN
T-norm activation, rules with zero activation skipped, pointwise MAX
aggregation over the universe, starting from `np.zeros_like(universe)`. -/
def infer (e_sets : ELabel → ℚ) (ce_sets : CLabel → ℚ) : List ℚ :=
  fuzzy_rules.foldl
    (fun aggregated r =>
      let activation := min (e_sets r.1) (ce_sets r.2.1)
      if activation = 0 then aggregated
      else
        List.zipWith max aggregated
          (u_universe.map (fun u => min activation (output_sets u r.2.2))))
    (u_universe.map (fun _ => 0))

/-- Source `FuzzyController.defuzzify` (fuzzy_controller.py:121-125):
centroid of the aggregated set, `0` when the aggregate sums to zero. -/
def defuzzify (aggregated : List ℚ) : ℚ :=
  if aggregated.sum = 0 then 0
  else (List.zipWith (· * ·) u_universe aggregated).sum / aggregated.sum

/-- Source `FuzzyController.update` (fuzzy_controller.py:128-145); the
mutable state is just `prev_error`, returned as the second component. -/
def fuzzy_update (cfg : FuzzyConfig) (prev_error : ℚ) (setpoint measurement dt : ℚ) :
    ℚ × ℚ :=
  let error := setpoint - measurement
  let ce := if dt > 0 then (error - prev_error) / dt else 0
  let e_sets := fuzzify_error error
  let ce_sets := fuzzify_ce ce
  let aggregated := infer e_sets ce_sets
  let u_norm := defuzzify aggregated
  let u := u_norm * cfg.output_max
  (max cfg.output_min (min u cfg.output_max), error)

/-- Source `FuzzyController.reset` (fuzzy_controller.py:30-31). -/
def fuzzy_reset : ℚ := 0

/-! ## Claims about the thermal model and the controllers -/

/-- C5: for every control input, temperature and time step, the plant's
`update` returns `T + ((clamp(u, -coolingPower, heatingPower)
- heatLossCoef*(T - ambientTemp)) / heatCapacity) * dt` (the heating branch
applying for `u > 0` and the cooling branch for `u ≤ 0`), provided the
power limits are nonnegative as the data model guarantees; in particular
with heat capacity 500, heating power 250, heat-loss coefficient 1.5,
ambient 22 and T = 22, `update 250 0.1` yields 22.05. -/
theorem thermal_update_clamp_form :
    (∀ (tc : ThermalConfig) (T u dt : ℚ),
        0 ≤ tc.heating_power → 0 ≤ tc.cooling_power →
        thermal_update tc T u dt =
          T + ((max (-tc.cooling_power) (min u tc.heating_power)
                - tc.heat_loss_coef * (T - tc.ambient_temp))
               / tc.heat_capacity) * dt) ∧
    thermal_update ⟨500, 250, 150, 3/2, 22⟩ 22 250 (1/10) = 441/20 := by
  constructor
  · intro tc T u dt hh hc
    unfold thermal_update get_derivative calculate_heat_flow
    dsimp only
    have happ :
        (if u > 0 then min u tc.heating_power else max u (-tc.cooling_power))
          = max (-tc.cooling_power) (min u tc.heating_power) := by
      by_cases hu : u > 0
      · rw [if_pos hu, max_eq_right]
        exact le_trans (neg_nonpos.mpr hc) (le_min (le_of_lt hu) hh)
      · rw [if_neg hu, min_eq_left (le_trans (not_lt.mp hu) hh), max_comm]
    rw [happ]
  · norm_num [thermal_update, get_derivative, calculate_heat_flow, min_self]

/-- Witness for C5 at the spec's concrete plant parameters. -/
theorem thermal_update_clamp_form_witness :
    (0 : ℚ) ≤ 250 ∧ (0 : ℚ) ≤ 150 ∧
    thermal_update ⟨500, 250, 150, 3/2, 22⟩ 22 250 (1/10) =
      22 + ((max (-(150 : ℚ)) (min 250 250) - (3/2) * (22 - 22)) / 500) * (1/10) :=
  ⟨by norm_num, by norm_num,
    thermal_update_clamp_form.1 ⟨500, 250, 150, 3/2, 22⟩ 22 250 (1/10)
      (by norm_num) (by norm_num)⟩

/-- C2: with `kp = 0` and `output_min ≤ 0 ≤ output_max`, `pid_update`
returns exactly 0 for every setpoint, measurement, time step and prior
state; the anti-windup back-calculation branch (the only division by `kp`)
is never triggered, and the integral accumulator still grows by
`error * dt` unclamped. -/
theorem pid_kp_zero_output_zero (cfg : PIDConfig) (s : PIDState) (sp m dt : ℚ)
    (hkp : cfg.kp = 0) (hmin : cfg.output_min ≤ 0) (hmax : (0 : ℚ) ≤ cfg.output_max) :
    (pid_update cfg s sp m dt).1 = 0 ∧
    ¬ pid_antiwindup_triggered cfg s sp m dt ∧
    (pid_update cfg s sp m dt).2.integral = s.integral + (sp - m) * dt := by
  have hraw : pid_raw_output cfg s sp m dt = 0 := by
    unfold pid_raw_output; rw [hkp, zero_mul]
  have hcl : clampO cfg (0 : ℚ) = 0 := by
    unfold clampO; rw [min_eq_left hmax, max_eq_right hmin]
  refine ⟨?_, ?_, ?_⟩
  · rw [pid_update_fst, hraw, hcl]
  · intro h
    unfold pid_antiwindup_triggered at h
    rw [hraw, hcl] at h
    exact h.1 rfl
  · unfold pid_update
    dsimp only
    rw [hkp, zero_mul, if_neg]
    · rfl
    · intro h
      exact h.1 hcl.symm

/-- Witness for C2: a degenerate `kp = 0` configuration with symmetric
bounds, a large error and nonzero prior integral. -/
theorem pid_kp_zero_output_zero_witness :
    (0 : ℚ) = 0 ∧ (-150 : ℚ) ≤ 0 ∧ (0 : ℚ) ≤ 250 ∧
    ((pid_update ⟨0, 1, 20, -150, 250⟩ ⟨7, 3, 2, 0, 0, 0⟩ 95 22 (1/10)).1 = 0 ∧
      ¬ pid_antiwindup_triggered ⟨0, 1, 20, -150, 250⟩ ⟨7, 3, 2, 0, 0, 0⟩ 95 22 (1/10) ∧
      (pid_update ⟨0, 1, 20, -150, 250⟩ ⟨7, 3, 2, 0, 0, 0⟩ 95 22 (1/10)).2.integral =
        7 + (95 - 22) * (1/10)) :=
  ⟨rfl, by norm_num, by norm_num,
    pid_kp_zero_output_zero ⟨0, 1, 20, -150, 250⟩ ⟨7, 3, 2, 0, 0, 0⟩ 95 22 (1/10)
      rfl (by norm_num) (by norm_num)⟩

/-- Evaluation of `pid_update` when the anti-windup branch fires. -/
theorem pid_update_saturated (cfg : PIDConfig) (s : PIDState) (sp m dt : ℚ)
    (h : pid_antiwindup_triggered cfg s sp m dt) :
    pid_update cfg s sp m dt =
      (clampO cfg (pid_raw_output cfg s sp m dt),
        ⟨(clampO cfg (pid_raw_output cfg s sp m dt) / cfg.kp
            - pid_error sp m - pid_d_term cfg s (pid_error sp m) dt) * cfg.ti,
          pid_error sp m, pid_new_prev_derivative s (pid_error sp m) dt,
          pid_error sp m,
          clampO cfg (pid_raw_output cfg s sp m dt) / cfg.kp
            - pid_error sp m - pid_d_term cfg s (pid_error sp m) dt,
          pid_d_term cfg s (pid_error sp m) dt⟩) := by
  unfold pid_antiwindup_triggered pid_raw_output at h
  unfold pid_update
  dsimp only
  rw [if_pos h]
  unfold pid_raw_output
  rfl

/-- Evaluation of `pid_update` when the raw output is not clamped. -/
theorem pid_update_unsaturated_integral (cfg : PIDConfig) (s : PIDState) (sp m dt : ℚ)
    (h : pid_raw_output cfg s sp m dt = clampO cfg (pid_raw_output cfg s sp m dt)) :
    (pid_update cfg s sp m dt).2.integral = s.integral + (sp - m) * dt := by
  unfold pid_raw_output at h
  unfold pid_update
  dsimp only
  rw [if_neg]
  · rfl
  · intro hcon
    exact hcon.1 h

/-- C3: whenever the raw output differs from its clamp and `Ti > 0` and
`Kp ≠ 0`, the integral is back-calculated to
`(output_clamped/Kp - p_term - d_term) * Ti`, making
`Kp * (p_term + integral/Ti + d_term)` equal the clamped output exactly;
when the raw output is within bounds the integral keeps its plain
accumulated value `integral + error*dt`. -/
theorem pid_antiwindup_back_calculation (cfg : PIDConfig) (s : PIDState) (sp m dt : ℚ) :
    (pid_antiwindup_triggered cfg s sp m dt → cfg.kp ≠ 0 →
      ((pid_update cfg s sp m dt).2.integral =
          ((pid_update cfg s sp m dt).1 / cfg.kp
            - (pid_update cfg s sp m dt).2.p_term
            - (pid_update cfg s sp m dt).2.d_term) * cfg.ti ∧
        cfg.kp * ((pid_update cfg s sp m dt).2.p_term
            + (pid_update cfg s sp m dt).2.integral / cfg.ti
            + (pid_update cfg s sp m dt).2.d_term)
          = (pid_update cfg s sp m dt).1)) ∧
    (pid_raw_output cfg s sp m dt = clampO cfg (pid_raw_output cfg s sp m dt) →
      (pid_update cfg s sp m dt).2.integral = s.integral + (sp - m) * dt) := by
  constructor
  · intro h hkp
    have hti : cfg.ti ≠ 0 := ne_of_gt h.2
    rw [pid_update_saturated cfg s sp m dt h]
    dsimp only
    constructor
    · rfl
    · rw [mul_div_cancel_right₀ _ hti]
      have harr :
          pid_error sp m
            + (clampO cfg (pid_raw_output cfg s sp m dt) / cfg.kp
                - pid_error sp m - pid_d_term cfg s (pid_error sp m) dt)
            + pid_d_term cfg s (pid_error sp m) dt
          = clampO cfg (pid_raw_output cfg s sp m dt) / cfg.kp := by ring
      rw [harr, mul_comm, div_mul_cancel₀ _ hkp]
  · exact pid_update_unsaturated_integral cfg s sp m dt

/-- Witness for C3: `kp = 1`, `ti = 1`, bounds `[-1, 1]`, a large error that
saturates the output and fires the back-calculation. -/
theorem pid_antiwindup_back_calculation_witness :
    pid_antiwindup_triggered ⟨1, 1, 0, -1, 1⟩ pid_reset 10 0 1 ∧ (1 : ℚ) ≠ 0 ∧
    ((pid_update ⟨1, 1, 0, -1, 1⟩ pid_reset 10 0 1).2.integral =
        ((pid_update ⟨1, 1, 0, -1, 1⟩ pid_reset 10 0 1).1 / 1
          - (pid_update ⟨1, 1, 0, -1, 1⟩ pid_reset 10 0 1).2.p_term
          - (pid_update ⟨1, 1, 0, -1, 1⟩ pid_reset 10 0 1).2.d_term) * 1 ∧
      1 * ((pid_update ⟨1, 1, 0, -1, 1⟩ pid_reset 10 0 1).2.p_term
          + (pid_update ⟨1, 1, 0, -1, 1⟩ pid_reset 10 0 1).2.integral / 1
          + (pid_update ⟨1, 1, 0, -1, 1⟩ pid_reset 10 0 1).2.d_term)
        = (pid_update ⟨1, 1, 0, -1, 1⟩ pid_reset 10 0 1).1) := by
  have htrig : pid_antiwindup_triggered ⟨1, 1, 0, -1, 1⟩ pid_reset 10 0 1 := by
    unfold pid_antiwindup_triggered pid_raw_output pid_error pid_i_term
      pid_new_integral pid_d_term pid_filtered_derivative pid_reset clampO
    norm_num [min_def, max_def]
  exact ⟨htrig, by norm_num,
    (pid_antiwindup_back_calculation ⟨1, 1, 0, -1, 1⟩ pid_reset 10 0 1).1 htrig
      (by norm_num)⟩

/-- C4: for every setpoint, measurement, time step and every internal
state, the outputs of both `pid_update` and `fuzzy_update` lie within
`[output_min, output_max]` whenever `output_min ≤ output_max`. -/
theorem controller_outputs_within_limits :
    (∀ (cfg : PIDConfig) (s : PIDState) (sp m dt : ℚ),
        cfg.output_min ≤ cfg.output_max →
        cfg.output_min ≤ (pid_update cfg s sp m dt).1 ∧
          (pid_update cfg s sp m dt).1 ≤ cfg.output_max) ∧
    (∀ (cfg : FuzzyConfig) (prev_error sp m dt : ℚ),
        cfg.output_min ≤ cfg.output_max →
        cfg.output_min ≤ (fuzzy_update cfg prev_error sp m dt).1 ∧
          (fuzzy_update cfg prev_error sp m dt).1 ≤ cfg.output_max) := by
  constructor
  · intro cfg s sp m dt h
    rw [pid_update_fst]
    unfold clampO
    exact clamp_mem _ _ _ h
  · intro cfg pe sp m dt h
    unfold fuzzy_update
    dsimp only
    exact clamp_mem _ _ _ h

/-- Witness for C4 at the default bounds `[-150, 250]`. -/
theorem controller_outputs_within_limits_witness :
    (-150 : ℚ) ≤ 250 ∧
    ((-150 : ℚ) ≤ (pid_update ⟨80, 1, 20, -150, 250⟩ pid_reset 95 22 (1/10)).1 ∧
      (pid_update ⟨80, 1, 20, -150, 250⟩ pid_reset 95 22 (1/10)).1 ≤ 250) ∧
    ((-150 : ℚ) ≤ (fuzzy_update ⟨-150, 250⟩ 0 95 22 (1/10)).1 ∧
      (fuzzy_update ⟨-150, 250⟩ 0 95 22 (1/10)).1 ≤ 250) :=
  ⟨by norm_num,
    controller_outputs_within_limits.1 ⟨80, 1, 20, -150, 250⟩ pid_reset 95 22 (1/10)
      (by norm_num),
    controller_outputs_within_limits.2 ⟨-150, 250⟩ 0 95 22 (1/10) (by norm_num)⟩

/-- C9: for breakpoints `a ≤ b ≤ c ≤ d`, `trapmf` is 0 outside `(a, d)`,
1 on the plateau, and the two linear ramps in between; the `x ≤ a` rule
wins at the degenerate `a = b` corner, so
`trapmf (-100) (-100) (-100) (-60) (-40) = 0` while
`trapmf (-80)` of the same quadruple is 1. -/
theorem trapmf_piecewise :
    (∀ (x a b c d : ℚ), a ≤ b → b ≤ c → c ≤ d →
      ((x ≤ a ∨ d ≤ x) → trapmf x a b c d = 0) ∧
      (a < x → x < d → b ≤ x → x ≤ c → trapmf x a b c d = 1) ∧
      (a < x → x < b → trapmf x a b c d = (x - a) / (b - a)) ∧
      (c < x → x < d → trapmf x a b c d = (d - x) / (d - c))) ∧
    trapmf (-100) (-100) (-100) (-60) (-40) = 0 ∧
    trapmf (-80) (-100) (-100) (-60) (-40) = 1 := by
  refine ⟨?_, ?_, ?_⟩
  · intro x a b c d hab hbc hcd
    refine ⟨?_, ?_, ?_, ?_⟩
    · intro h
      unfold trapmf
      rw [if_pos h]
    · intro hax hxd hbx hxc
      unfold trapmf
      rw [if_neg, if_pos ⟨hbx, hxc⟩]
      rintro (h | h)
      · exact absurd h (not_le.mpr hax)
      · exact absurd h (not_le.mpr hxd)
    · intro hax hxb
      have hxd : x < d := lt_of_lt_of_le hxb (le_trans hbc hcd)
      unfold trapmf
      rw [if_neg, if_neg, if_pos ⟨hax, hxb⟩]
      · intro h
        exact absurd hxb (not_lt.mpr h.1)
      · rintro (h | h)
        · exact absurd h (not_le.mpr hax)
        · exact absurd h (not_le.mpr hxd)
    · intro hcx hxd
      have hax : a < x := lt_of_le_of_lt (le_trans hab hbc) hcx
      unfold trapmf
      rw [if_neg, if_neg, if_neg]
      · intro h
        exact absurd (lt_of_lt_of_le h.2 hbc) (not_lt.mpr (le_of_lt hcx))
      · intro h
        exact absurd h.2 (not_le.mpr hcx)
      · rintro (h | h)
        · exact absurd h (not_le.mpr hax)
        · exact absurd h (not_le.mpr hxd)
  · unfold trapmf
    norm_num
  · unfold trapmf
    norm_num

/-- Witness for C9 on the NB error set at the plateau point `x = -80`. -/
theorem trapmf_piecewise_witness :
    (-100 : ℚ) ≤ -100 ∧ (-100 : ℚ) ≤ -60 ∧ (-60 : ℚ) ≤ -40 ∧
    (-100 : ℚ) < -80 ∧ (-80 : ℚ) < -40 ∧ (-100 : ℚ) ≤ -80 ∧ (-80 : ℚ) ≤ -60 ∧
    trapmf (-80) (-100) (-100) (-60) (-40) = 1 :=
  ⟨by norm_num, by norm_num, by norm_num, by norm_num, by norm_num, by norm_num,
    by norm_num,
    (trapmf_piecewise.1 (-80) (-100) (-100) (-60) (-40) (by norm_num) (by norm_num)
        (by norm_num)).2.1 (by norm_num) (by norm_num) (by norm_num) (by norm_num)⟩

/-- C8: `defuzzify` returns the centroid
`Σ(u_i * aggregated_i) / Σ(aggregated_i)` when the aggregate has nonzero
sum, and exactly 0 when the aggregated sum is 0, so no rule firing never
yields an undefined value. -/
theorem defuzzify_centroid (aggregated : List ℚ) :
    (aggregated.sum = 0 → defuzzify aggregated = 0) ∧
    (aggregated.sum ≠ 0 →
      defuzzify aggregated =
        (List.zipWith (· * ·) u_universe aggregated).sum / aggregated.sum) := by
  constructor
  · intro h
    unfold defuzzify
    rw [if_pos h]
  · intro h
    unfold defuzzify
    rw [if_neg h]

/-- Witness for C8 on the all-zero and all-one aggregates over the
200-point universe. -/
theorem defuzzify_centroid_witness :
    ((List.replicate 200 (0 : ℚ)).sum = 0 ∧
      defuzzify (List.replicate 200 (0 : ℚ)) = 0) ∧
    ((List.replicate 200 (1 : ℚ)).sum ≠ 0 ∧
      defuzzify (List.replicate 200 (1 : ℚ)) =
        (List.zipWith (· * ·) u_universe (List.replicate 200 (1 : ℚ))).sum
          / (List.replicate 200 (1 : ℚ)).sum) := by
  have h0 : (List.replicate 200 (0 : ℚ)).sum = 0 := by
    rw [List.sum_replicate, smul_zero]
  have h1 : (List.replicate 200 (1 : ℚ)).sum ≠ 0 := by
    rw [List.sum_replicate, nsmul_eq_mul]
    norm_num
  exact ⟨⟨h0, (defuzzify_centroid _).1 h0⟩, ⟨h1, (defuzzify_centroid _).2 h1⟩⟩

/-! ## Simulation orchestrator (pcr_simulator.py) -/

/-- Source `PCRSimulator._build_protocol` (pcr_simulator.py:43-82): the
appending loop over `range(num_cycles)` is rendered as a joined
replicate. -/
def build_protocol (initial_temp initial_duration denat_temp denat_duration
    anneal_temp anneal_duration extension_temp extension_duration : ℚ)
    (num_cycles : ℕ) (final_temp final_duration hold_temp hold_duration : ℚ) :
    List (ℚ × ℚ) :=
  [(initial_temp, initial_duration)]
    ++ List.flatten (List.replicate num_cycles
        [(denat_temp, denat_duration), (anneal_temp, anneal_duration),
          (extension_temp, extension_duration)])
    ++ [(final_temp, final_duration), (hold_temp, hold_duration)]

/-- Indexing into a join of `n` copies of a block: position
`q * |l| + r` reads position `r` of the block, for `q < n`. -/
theorem getD_join_replicate {α : Type} (l : List α) (d : α) :
    ∀ (n q r : ℕ), q < n → r < l.length →
      (List.flatten (List.replicate n l)).getD (q * l.length + r) d = l.getD r d := by
  intro n
  induction n with
  | zero => intro q r hq _; exact absurd hq (Nat.not_lt_zero q)
  | succ n ih =>
    intro q r hq hr
    rw [List.replicate_succ, List.flatten_cons]
    cases q with
    | zero =>
      rw [Nat.zero_mul, Nat.zero_add]
      exact List.getD_append _ _ _ _ hr
    | succ s =>
      have hge : l.length ≤ s.succ * l.length + r := by
        rw [Nat.succ_mul]
        omega
      rw [List.getD_append_right _ _ _ _ hge]
      have hidx : s.succ * l.length + r - l.length = s * l.length + r := by
        rw [Nat.succ_mul]
        omega
      rw [hidx]
      exact ih s r (Nat.lt_of_succ_lt_succ hq) hr

/-- C7: `build_protocol` returns exactly `3 + 3N` stages in the fixed
order initial, N × (denaturation, annealing, extension), final extension,
hold; and for N = 2 with denat (95,30), anneal (58,30), extension (72,60)
the six stages after the initial one are
(95,30),(58,30),(72,60),(95,30),(58,30),(72,60). -/
theorem build_protocol_structure :
    (∀ (itemp idur dtemp ddur atemp adur etemp edur : ℚ) (N : ℕ)
        (ftemp fdur htemp hdur : ℚ),
      (build_protocol itemp idur dtemp ddur atemp adur etemp edur N
          ftemp fdur htemp hdur).length = 3 + 3 * N ∧
      (build_protocol itemp idur dtemp ddur atemp adur etemp edur N
          ftemp fdur htemp hdur).getD 0 (0, 0) = (itemp, idur) ∧
      (∀ i, i < N →
        (build_protocol itemp idur dtemp ddur atemp adur etemp edur N
            ftemp fdur htemp hdur).getD (1 + 3 * i) (0, 0) = (dtemp, ddur) ∧
        (build_protocol itemp idur dtemp ddur atemp adur etemp edur N
            ftemp fdur htemp hdur).getD (2 + 3 * i) (0, 0) = (atemp, adur) ∧
        (build_protocol itemp idur dtemp ddur atemp adur etemp edur N
            ftemp fdur htemp hdur).getD (3 + 3 * i) (0, 0) = (etemp, edur)) ∧
      (build_protocol itemp idur dtemp ddur atemp adur etemp edur N
          ftemp fdur htemp hdur).getD (1 + 3 * N) (0, 0) = (ftemp, fdur) ∧
      (build_protocol itemp idur dtemp ddur atemp adur etemp edur N
          ftemp fdur htemp hdur).getD (2 + 3 * N) (0, 0) = (htemp, hdur)) ∧
    ((build_protocol 95 180 95 30 58 30 72 60 2 72 300 10 60).drop 1).take 6 =
      [(95, 30), (58, 30), (72, 60), (95, 30), (58, 30), (72, 60)] := by
  constructor
  · intro itemp idur dtemp ddur atemp adur etemp edur N ftemp fdur htemp hdur
    have hassoc :
        build_protocol itemp idur dtemp ddur atemp adur etemp edur N
            ftemp fdur htemp hdur
          = (itemp, idur)
              :: (List.flatten (List.replicate N
                    [(dtemp, ddur), (atemp, adur), (etemp, edur)])
                  ++ [(ftemp, fdur), (htemp, hdur)]) := by
      unfold build_protocol
      rw [List.append_assoc]
      rfl
    have hJ :
        (List.flatten (List.replicate N
            [(dtemp, ddur), (atemp, adur), (etemp, edur)])).length = 3 * N := by
      rw [List.length_flatten, List.map_replicate, List.sum_replicate, smul_eq_mul]
      norm_num
      ring
    refine ⟨?_, ?_, ?_, ?_, ?_⟩
    · rw [hassoc, List.length_cons, List.length_append, hJ]
      simp only [List.length_cons, List.length_nil]
      omega
    · rw [hassoc]
      rfl
    · intro i hi
      refine ⟨?_, ?_, ?_⟩
      · rw [hassoc, show 1 + 3 * i = 3 * i + 1 from by omega, List.getD_cons_succ,
          List.getD_append _ _ _ _ (by rw [hJ]; omega),
          show 3 * i = i * 3 + 0 from by ring]
        exact getD_join_replicate _ _ N i 0 hi (by norm_num)
      · rw [hassoc, show 2 + 3 * i = (3 * i + 1) + 1 from by omega, List.getD_cons_succ,
          List.getD_append _ _ _ _ (by rw [hJ]; omega),
          show 3 * i + 1 = i * 3 + 1 from by ring]
        exact getD_join_replicate _ _ N i 1 hi (by norm_num)
      · rw [hassoc, show 3 + 3 * i = (3 * i + 2) + 1 from by omega, List.getD_cons_succ,
          List.getD_append _ _ _ _ (by rw [hJ]; omega),
          show 3 * i + 2 = i * 3 + 2 from by ring]
        exact getD_join_replicate _ _ N i 2 hi (by norm_num)
    · rw [hassoc, show 1 + 3 * N = 3 * N + 1 from by omega, List.getD_cons_succ,
        List.getD_append_right _ _ _ _ (by rw [hJ])]
      rw [hJ, Nat.sub_self]
      rfl
    · rw [hassoc, show 2 + 3 * N = (3 * N + 1) + 1 from by omega, List.getD_cons_succ,
        List.getD_append_right _ _ _ _ (by rw [hJ]; omega)]
      rw [hJ, show 3 * N + 1 - 3 * N = 1 from by omega]
      rfl
  · rfl

/-- Witness for C7 with one cycle, reading the denaturation stage of
cycle 0. -/
theorem build_protocol_structure_witness :
    (0 : ℕ) < 1 ∧
    (build_protocol 95 180 94 30 58 30 72 60 1 72 300 10 60).getD (1 + 3 * 0) (0, 0)
      = (94, 30) :=
  ⟨Nat.zero_lt_one,
    ((build_protocol_structure.1 95 180 94 30 58 30 72 60 1 72 300
        10 60).2.2.1 0 Nat.zero_lt_one).1⟩

/-- One recorded sample row of `simulate` (pcr_simulator.py:196-205): the
eight parallel arrays share one index, so a row bundles their entries. -/
structure SimRecord where
  time : ℚ
  temperature : ℚ
  setpoint : ℚ
  control : ℚ
  error : ℚ
  p_term : ℚ
  i_term : ℚ
  d_term : ℚ

/-- Default row used with `List.getD`. -/
def defaultRecord : SimRecord := ⟨0, 0, 0, 0, 0, 0, 0, 0⟩

/-- Running state of the `simulate` loops: current time, step counter,
plant temperature, controller state, and the samples recorded so far
(the source preallocates zero arrays and trims to `step`; appending rows
yields the same trimmed content). -/
structure SimState where
  time : ℚ
  step : ℕ
  temp : ℚ
  pid : PIDState
  recs : List SimRecord

/-- Inner `while` loop of `simulate` (pcr_simulator.py:184-209).  The
source guard is `current_time < stage_end_time and step < num_steps`;
since `step` increases by exactly 1 per iteration, the second conjunct is
rendered by the structural fuel `num_steps - step` supplied at the call
site, which is zero exactly when `step < num_steps` fails. -/
def sim_stage_loop (tc : ThermalConfig) (pc : PIDConfig)
    (dt stage_temp stage_end : ℚ) : ℕ → SimState → SimState
  | 0, st => st
  | fuel + 1, st =>
    if st.time < stage_end then
      let current_temp := st.temp
      let r := pid_update pc st.pid stage_temp current_temp dt
      let new_temp := thermal_update tc current_temp r.1 dt
      let sample : SimRecord :=
        ⟨st.time, current_temp, stage_temp, r.1, stage_temp - current_temp,
          r.2.p_term, r.2.i_term, r.2.d_term⟩
      sim_stage_loop tc pc dt stage_temp stage_end fuel
        ⟨st.time + dt, st.step + 1, new_temp, r.2, st.recs ++ [sample]⟩
    else st

/-- Outer stage iteration of `simulate` (pcr_simulator.py:181-209):
each stage's end time is the running accumulator plus its duration. -/
def sim_stages (tc : ThermalConfig) (pc : PIDConfig) (dt : ℚ) (num_steps : ℕ) :
    List (ℚ × ℚ) → SimState → SimState
  | [], st => st
  | (stage_temp, stage_duration) :: rest, st =>
    sim_stages tc pc dt num_steps rest
      (sim_stage_loop tc pc dt stage_temp (st.time + stage_duration)
        (num_steps - st.step) st)

/-- Source `num_steps = int(total_time / time_step) + 1`
(pcr_simulator.py:159-160); Python `int` truncation of the nonnegative
ratio is `Nat.floor`. -/
def theoretical_steps (protocol : List (ℚ × ℚ)) (dt : ℚ) : ℕ :=
  ⌊(protocol.map Prod.snd).sum / dt⌋₊ + 1

/-- Source `PCRSimulator.simulate` through the trim step
(pcr_simulator.py:158-219), taking the built protocol: it resets the
plant and the controller (pcr_simulator.py:172-174) — discarding the
leftover plant temperature `temp0` and controller state `s0` — and runs
the stage loops from time 0 and step 0. -/
def simulateFrom (tc : ThermalConfig) (pc : PIDConfig) (dt : ℚ)
    (protocol : List (ℚ × ℚ)) (temp0 : ℚ) (s0 : PIDState) : SimState :=
  sim_stages tc pc dt (theoretical_steps protocol dt) protocol
    ⟨0, 0, thermal_reset tc none, pid_reset, []⟩

/-- Source `PCRSimulator.simulate` parameter interface
(pcr_simulator.py:102-156): builds the protocol, then runs the loops. -/
def simulate (tc : ThermalConfig) (pc : PIDConfig) (time_step : ℚ)
    (initial_temp initial_duration denat_temp denat_duration anneal_temp
      anneal_duration extension_temp extension_duration : ℚ) (num_cycles : ℕ)
    (final_temp final_duration hold_temp hold_duration : ℚ)
    (temp0 : ℚ) (s0 : PIDState) : SimState :=
  simulateFrom tc pc time_step
    (build_protocol initial_temp initial_duration denat_temp denat_duration
      anneal_temp anneal_duration extension_temp extension_duration num_cycles
      final_temp final_duration hold_temp hold_duration) temp0 s0

/-- Source `PCRSimulator._downsample` (pcr_simulator.py:84-100):
`np.linspace(0, len(data)-1, max_points, dtype=int)` computes the points
`k * (len(data)-1) / (max_points-1)` and casts to int, truncating toward
zero — on these nonnegative values exactly natural-number division. -/
def downsample (data : List ℚ) (max_points : ℕ) : List ℚ :=
  if data.length ≤ max_points then data
  else
    (List.range max_points).map
      (fun k => data.getD (k * (data.length - 1) / (max_points - 1)) 0)

/-- The eight parallel output series of `simulate`
(pcr_simulator.py:232-241). -/
structure SeriesOut where
  time : List ℚ
  temperature : List ℚ
  setpoint : List ℚ
  control : List ℚ
  error : List ℚ
  p_term : List ℚ
  i_term : List ℚ
  d_term : List ℚ

/-- Downsampling pass of `simulate` (pcr_simulator.py:221-241): when the
trimmed length exceeds `DOWNSAMPLE_THRESHOLD = 5000` (config.py:34), each
of the eight series is passed through `_downsample`. -/
def assemble_output (recs : List SimRecord) : SeriesOut :=
  let time_array := recs.map SimRecord.time
  let temp_array := recs.map SimRecord.temperature
  let setpoint_array := recs.map SimRecord.setpoint
  let control_array := recs.map SimRecord.control
  let error_array := recs.map SimRecord.error
  let p_array := recs.map SimRecord.p_term
  let i_array := recs.map SimRecord.i_term
  let d_array := recs.map SimRecord.d_term
  if 5000 < time_array.length then
    ⟨downsample time_array 5000, downsample temp_array 5000,
      downsample setpoint_array 5000, downsample control_array 5000,
      downsample error_array 5000, downsample p_array 5000,
      downsample i_array 5000, downsample d_array 5000⟩
  else
    ⟨time_array, temp_array, setpoint_array, control_array, error_array,
      p_array, i_array, d_array⟩

/-! ## Claims about the orchestrator -/

/-- Value of the downsampling pass at index `k`: the raw value at the
truncated linspace index `k * (L-1) / 4999`. -/
theorem downsample_getD (data : List ℚ) (k : ℕ)
    (hL : 5000 < data.length) (hk : k < 5000) :
    (downsample data 5000).getD k 0
      = data.getD (k * (data.length - 1) / 4999) 0 := by
  unfold downsample
  rw [if_neg (by omega)]
  have hlen : k < ((List.range 5000).map
      (fun k => data.getD (k * (data.length - 1) / (5000 - 1)) 0)).length := by
    rw [List.length_map, List.length_range]
    exact hk
  rw [List.getD_eq_getElem _ _ hlen, List.getElem_map, List.getElem_range]

/-- The truncated linspace index stays in range. -/
theorem downsample_idx_lt (L k : ℕ) (hL : 5000 < L) (hk : k < 5000) :
    k * (L - 1) / 4999 < L := by
  have h1 : k * (L - 1) ≤ 4999 * (L - 1) := Nat.mul_le_mul_right _ (by omega)
  have h2 : k * (L - 1) / 4999 ≤ 4999 * (L - 1) / 4999 := Nat.div_le_div_right h1
  rw [Nat.mul_div_cancel_left _ (by norm_num)] at h2
  omega

/-- Natural-number division agrees with the floor of the exact rational
ratio, which is what the float `linspace` values truncate to. -/
theorem nat_div_as_floor (a b : ℕ) : (a / b : ℕ) = ⌊(a : ℚ) / (b : ℚ)⌋₊ := by
  rw [Nat.floor_div_nat, Nat.floor_natCast]

/-- Reading a mapped list through `getD` at an in-range index. -/
theorem getD_map_of_lt {α β : Type} (f : α → β) (l : List α) (i : ℕ)
    (h : i < l.length) (d : β) (d' : α) :
    (l.map f).getD i d = f (l.getD i d') := by
  rw [List.getD_eq_getElem _ _ (by rw [List.length_map]; exact h),
    List.getElem_map, List.getD_eq_getElem _ _ h]

/-- Downsampling one projected series of the record list. -/
theorem downsample_map_getD (f : SimRecord → ℚ) (recs : List SimRecord)
    (hL : 5000 < recs.length) (k : ℕ) (hk : k < 5000) :
    (downsample (recs.map f) 5000).getD k 0
      = f (recs.getD (k * (recs.length - 1) / 4999) defaultRecord) := by
  have hml : (recs.map f).length = recs.length := List.length_map _ _
  rw [downsample_getD _ _ (by rw [hml]; exact hL) hk, hml]
  exact getD_map_of_lt f recs _ (downsample_idx_lt _ k hL hk) 0 defaultRecord

/-- Length of the downsampled series. -/
theorem downsample_length (data : List ℚ) (h : 5000 < data.length) :
    (downsample data 5000).length = 5000 := by
  unfold downsample
  rw [if_neg (by omega), List.length_map, List.length_range]

/-- C1 (amended): when the trimmed length L exceeds 5000, every one of
the eight series of the downsampling pass has exactly 5000 points, the
value at downsampled index `k` equals the raw value at the truncated
(floored, not rounded) index `k*(L-1)/4999`, and the identical index is
used for every series, preserving cross-series alignment. -/
theorem downsample_applies_floor_indices (recs : List SimRecord)
    (hL : 5000 < recs.length) :
    ((assemble_output recs).time.length = 5000 ∧
      (assemble_output recs).temperature.length = 5000 ∧
      (assemble_output recs).setpoint.length = 5000 ∧
      (assemble_output recs).control.length = 5000 ∧
      (assemble_output recs).error.length = 5000 ∧
      (assemble_output recs).p_term.length = 5000 ∧
      (assemble_output recs).i_term.length = 5000 ∧
      (assemble_output recs).d_term.length = 5000) ∧
    (∀ k, k < 5000 →
      (assemble_output recs).time.getD k 0
          = (recs.getD (k * (recs.length - 1) / 4999) defaultRecord).time ∧
      (assemble_output recs).temperature.getD k 0
          = (recs.getD (k * (recs.length - 1) / 4999) defaultRecord).temperature ∧
      (assemble_output recs).setpoint.getD k 0
          = (recs.getD (k * (recs.length - 1) / 4999) defaultRecord).setpoint ∧
      (assemble_output recs).control.getD k 0
          = (recs.getD (k * (recs.length - 1) / 4999) defaultRecord).control ∧
      (assemble_output recs).error.getD k 0
          = (recs.getD (k * (recs.length - 1) / 4999) defaultRecord).error ∧
      (assemble_output recs).p_term.getD k 0
          = (recs.getD (k * (recs.length - 1) / 4999) defaultRecord).p_term ∧
      (assemble_output recs).i_term.getD k 0
          = (recs.getD (k * (recs.length - 1) / 4999) defaultRecord).i_term ∧
      (assemble_output recs).d_term.getD k 0
          = (recs.getD (k * (recs.length - 1) / 4999) defaultRecord).d_term) ∧
    (∀ k, k < 5000 →
      k * (recs.length - 1) / 4999
        = ⌊((k * (recs.length - 1) : ℕ) : ℚ) / (4999 : ℚ)⌋₊) := by
  have hsel : assemble_output recs =
      ⟨downsample (recs.map SimRecord.time) 5000,
        downsample (recs.map SimRecord.temperature) 5000,
        downsample (recs.map SimRecord.setpoint) 5000,
        downsample (recs.map SimRecord.control) 5000,
        downsample (recs.map SimRecord.error) 5000,
        downsample (recs.map SimRecord.p_term) 5000,
        downsample (recs.map SimRecord.i_term) 5000,
        downsample (recs.map SimRecord.d_term) 5000⟩ := by
    unfold assemble_output
    rw [if_pos (by rw [List.length_map]; exact hL)]
  have hml : ∀ f : SimRecord → ℚ, 5000 < (recs.map f).length := by
    intro f
    rw [List.length_map]
    exact hL
  refine ⟨?_, ?_, ?_⟩
  · rw [hsel]
    exact ⟨downsample_length _ (hml _), downsample_length _ (hml _),
      downsample_length _ (hml _), downsample_length _ (hml _),
      downsample_length _ (hml _), downsample_length _ (hml _),
      downsample_length _ (hml _), downsample_length _ (hml _)⟩
  · intro k hk
    rw [hsel]
    exact ⟨downsample_map_getD _ recs hL k hk, downsample_map_getD _ recs hL k hk,
      downsample_map_getD _ recs hL k hk, downsample_map_getD _ recs hL k hk,
      downsample_map_getD _ recs hL k hk, downsample_map_getD _ recs hL k hk,
      downsample_map_getD _ recs hL k hk, downsample_map_getD _ recs hL k hk⟩
  · intro k _
    exact nat_div_as_floor _ _

/-- Witness for the amended C1 on a concrete 5001-row input. -/
theorem downsample_applies_floor_indices_witness :
    5000 < (List.replicate 5001 defaultRecord).length ∧
    (assemble_output (List.replicate 5001 defaultRecord)).time.length = 5000 ∧
    (assemble_output (List.replicate 5001 defaultRecord)).time.getD 0 0
      = ((List.replicate 5001 defaultRecord).getD
          (0 * ((List.replicate 5001 defaultRecord).length - 1) / 4999)
          defaultRecord).time :=
  ⟨by rw [List.length_replicate]; norm_num,
    (downsample_applies_floor_indices (List.replicate 5001 defaultRecord)
      (by rw [List.length_replicate]; norm_num)).1.1,
    ((downsample_applies_floor_indices (List.replicate 5001 defaultRecord)
      (by rw [List.length_replicate]; norm_num)).2.1 0 (by norm_num)).1⟩

/-- Identity-valued series of length 5002 used to separate floored from
rounded index selection. -/
def idList5002 : List ℚ := (List.range 5002).map (fun n : ℕ => (n : ℚ))

/-- Reading the identity series gives back the index. -/
theorem idList5002_getD (k : ℕ) (h : k < 5002) : idList5002.getD k 0 = (k : ℚ) := by
  unfold idList5002
  rw [List.getD_eq_getElem _ _ (by rw [List.length_map, List.length_range]; exact h),
    List.getElem_map, List.getElem_range]

/-- C1 as stated is false: for a raw series of length L = 5002, at
downsampled index k = 1250 the exact linspace value is
1250*5001/4999 = 1250.50009…, so the claimed round index is 1251, but the
code truncates and reads raw index 1250. -/
theorem downsample_round_counterexample :
    round ((1250 * 5001 : ℚ) / 4999) = 1251 ∧
    idList5002.length = 5002 ∧
    (downsample idList5002 5000).getD 1250 0 = 1250 ∧
    (downsample idList5002 5000).getD 1250 0
      ≠ idList5002.getD (round ((1250 * 5001 : ℚ) / 4999)).toNat 0 := by
  have hlen : idList5002.length = 5002 := by
    unfold idList5002
    rw [List.length_map, List.length_range]
  have hround : round ((1250 * 5001 : ℚ) / 4999) = 1251 := by
    rw [round_eq]
    norm_num
  have hidx : (1250 * (5002 - 1) / 4999 : ℕ) = 1250 := by norm_num
  have hval : (downsample idList5002 5000).getD 1250 0 = 1250 := by
    rw [downsample_getD idList5002 1250 (by rw [hlen]; norm_num) (by norm_num),
      hlen, hidx, idList5002_getD 1250 (by norm_num)]
    norm_num
  refine ⟨hround, hlen, hval, ?_⟩
  rw [hval, hround]
  have h1251 : ((1251 : ℤ)).toNat = 1251 := rfl
  rw [h1251, idList5002_getD 1251 (by norm_num)]
  norm_num

/-- The record list is a sample-then-advance chain: starting from plant
temperature `t0`, each row records the pre-update temperature and the
plant then advances by `thermal_update` with the recorded control;
`tcur` is the plant temperature after the last recorded row. -/
def chainedFrom (tc : ThermalConfig) (dt : ℚ) : ℚ → List SimRecord → ℚ → Prop
  | t0, [], tcur => tcur = t0
  | t0, r :: rs, tcur =>
    r.temperature = t0
      ∧ chainedFrom tc dt (thermal_update tc t0 r.control dt) rs tcur

/-- Appending one freshly sampled row preserves the chain. -/
theorem chainedFrom_append (tc : ThermalConfig) (dt : ℚ) :
    ∀ (rs : List SimRecord) (t0 tcur : ℚ) (r : SimRecord),
      chainedFrom tc dt t0 rs tcur → r.temperature = tcur →
      chainedFrom tc dt t0 (rs ++ [r]) (thermal_update tc tcur r.control dt) := by
  intro rs
  induction rs with
  | nil =>
    intro t0 tcur r h hr
    have h' : tcur = t0 := h
    subst h'
    rw [List.nil_append]
    exact ⟨hr, rfl⟩
  | cons r' rs' ih =>
    intro t0 tcur r h hr
    rw [List.cons_append]
    exact ⟨h.1, ih _ tcur r h.2 hr⟩

/-- The first row of a chain records the starting temperature. -/
theorem chainedFrom_zero (tc : ThermalConfig) (dt : ℚ)
    (rs : List SimRecord) (t0 tcur : ℚ) (h : chainedFrom tc dt t0 rs tcur)
    (hpos : 0 < rs.length) :
    (rs.getD 0 defaultRecord).temperature = t0 := by
  cases rs with
  | nil => exact absurd hpos (by norm_num)
  | cons r rs' => exact h.1

/-- Consecutive rows of a chain are related by one Euler step driven by
the recorded control output. -/
theorem chainedFrom_succ (tc : ThermalConfig) (dt : ℚ) :
    ∀ (rs : List SimRecord) (t0 tcur : ℚ), chainedFrom tc dt t0 rs tcur →
      ∀ k, k + 1 < rs.length →
        (rs.getD (k + 1) defaultRecord).temperature
          = thermal_update tc ((rs.getD k defaultRecord).temperature)
              ((rs.getD k defaultRecord).control) dt := by
  intro rs
  induction rs with
  | nil =>
    intro t0 tcur _ k hk
    exact absurd hk (by simp)
  | cons r rs' ih =>
    intro t0 tcur h k hk
    cases k with
    | zero =>
      rw [List.getD_cons_succ, List.getD_cons_zero]
      rw [chainedFrom_zero tc dt rs' _ tcur h.2 (by simpa using hk), h.1]
    | succ j =>
      simp only [List.getD_cons_succ]
      exact ih _ tcur h.2 j (by simpa using hk)

/-- Loop invariant of the stepping loops: the step counter equals the
number of recorded rows, the clock is `rows * dt`, each row's time is
`k * dt`, each row's error is `setpoint - temperature`, and the rows form
a sample-then-advance chain from `t0` to the current plant state. -/
def simInv (tc : ThermalConfig) (dt t0 : ℚ) (st : SimState) : Prop :=
  st.step = st.recs.length ∧
  st.time = (st.recs.length : ℚ) * dt ∧
  (∀ k, k < st.recs.length →
    (st.recs.getD k defaultRecord).time = (k : ℚ) * dt) ∧
  (∀ k, k < st.recs.length →
    (st.recs.getD k defaultRecord).error =
      (st.recs.getD k defaultRecord).setpoint
        - (st.recs.getD k defaultRecord).temperature) ∧
  chainedFrom tc dt t0 st.recs st.temp

/-- One stage's inner loop preserves the invariant. -/
theorem sim_stage_loop_inv (tc : ThermalConfig) (pc : PIDConfig)
    (dt stage_temp stage_end t0 : ℚ) :
    ∀ (fuel : ℕ) (st : SimState), simInv tc dt t0 st →
      simInv tc dt t0 (sim_stage_loop tc pc dt stage_temp stage_end fuel st) := by
  intro fuel
  induction fuel with
  | zero => intro st h; exact h
  | succ n ih =>
    intro st h
    simp only [sim_stage_loop]
    by_cases hc : st.time < stage_end
    · rw [if_pos hc]
      apply ih
      obtain ⟨h1, h2, h3, h4, h5⟩ := h
      refine ⟨?_, ?_, ?_, ?_, ?_⟩
      · simp only [List.length_append, List.length_cons, List.length_nil]
        omega
      · simp only [List.length_append, List.length_cons, List.length_nil]
        rw [h2]
        push_cast
        ring
      · intro k hk
        simp only [List.length_append, List.length_cons, List.length_nil] at hk
        rcases Nat.lt_or_ge k st.recs.length with hlt | hge
        · rw [List.getD_append _ _ _ _ hlt]
          exact h3 k hlt
        · have hkeq : k = st.recs.length := by omega
          subst hkeq
          rw [List.getD_append_right _ _ _ _ (le_refl _), Nat.sub_self,
            List.getD_cons_zero]
          exact h2.symm ▸ rfl
      · intro k hk
        simp only [List.length_append, List.length_cons, List.length_nil] at hk
        rcases Nat.lt_or_ge k st.recs.length with hlt | hge
        · rw [List.getD_append _ _ _ _ hlt]
          exact h4 k hlt
        · have hkeq : k = st.recs.length := by omega
          subst hkeq
          rw [List.getD_append_right _ _ _ _ (le_refl _), Nat.sub_self,
            List.getD_cons_zero]
      · exact chainedFrom_append tc dt st.recs t0 st.temp _ h5 rfl
    · rw [if_neg hc]
      exact h

/-- The inner loop performs at most `fuel` iterations, each adding one
step. -/
theorem sim_stage_loop_step_le (tc : ThermalConfig) (pc : PIDConfig)
    (dt stage_temp stage_end : ℚ) :
    ∀ (fuel : ℕ) (st : SimState),
      (sim_stage_loop tc pc dt stage_temp stage_end fuel st).step ≤ st.step + fuel := by
  intro fuel
  induction fuel with
  | zero =>
    intro st
    simp [sim_stage_loop]
  | succ n ih =>
    intro st
    simp only [sim_stage_loop]
    by_cases hc : st.time < stage_end
    · rw [if_pos hc]
      have := ih ⟨st.time + dt, st.step + 1,
        thermal_update tc st.temp (pid_update pc st.pid stage_temp st.temp dt).1 dt,
        (pid_update pc st.pid stage_temp st.temp dt).2,
        st.recs ++ [⟨st.time, st.temp, stage_temp,
          (pid_update pc st.pid stage_temp st.temp dt).1, stage_temp - st.temp,
          (pid_update pc st.pid stage_temp st.temp dt).2.p_term,
          (pid_update pc st.pid stage_temp st.temp dt).2.i_term,
          (pid_update pc st.pid stage_temp st.temp dt).2.d_term⟩]⟩
      simp only at this
      omega
    · rw [if_neg hc]
      omega

/-- The stage iteration preserves the loop invariant. -/
theorem sim_stages_inv (tc : ThermalConfig) (pc : PIDConfig) (dt t0 : ℚ) (n : ℕ) :
    ∀ (prot : List (ℚ × ℚ)) (st : SimState), simInv tc dt t0 st →
      simInv tc dt t0 (sim_stages tc pc dt n prot st) := by
  intro prot
  induction prot with
  | nil =>
    intro st h
    exact h
  | cons p rest ih =>
    intro st h
    obtain ⟨a, b⟩ := p
    simp only [sim_stages]
    exact ih _ (sim_stage_loop_inv tc pc dt a (st.time + b) t0 _ st h)

/-- The step counter never exceeds the theoretical bound `n` across the
stage iteration. -/
theorem sim_stages_step_le (tc : ThermalConfig) (pc : PIDConfig) (dt : ℚ) (n : ℕ) :
    ∀ (prot : List (ℚ × ℚ)) (st : SimState), st.step ≤ n →
      (sim_stages tc pc dt n prot st).step ≤ n := by
  intro prot
  induction prot with
  | nil =>
    intro st h
    exact h
  | cons p rest ih =>
    intro st h
    obtain ⟨a, b⟩ := p
    simp only [sim_stages]
    apply ih
    have := sim_stage_loop_step_le tc pc dt a (st.time + b) (n - st.step) st
    omega

/-- C6: for every protocol with positive stage durations and `dt > 0`, the
raw (pre-downsample) series satisfy: the recorded time at index `k` is
`k * dt` (so time starts at 0 and is strictly increasing), the recorded
temperature is the plant state before that step's update (it starts at
the reset ambient temperature and advances by one Euler step driven by
the recorded control), the recorded error is `setpoint - temperature`,
and the number of recorded samples equals the executed loop iterations,
which is at most `floor(total_duration/dt) + 1`. -/
theorem simulate_raw_series_properties (tc : ThermalConfig) (pc : PIDConfig)
    (dt : ℚ) (protocol : List (ℚ × ℚ)) (temp0 : ℚ) (s0 : PIDState)
    (hdt : 0 < dt) (hdur : ∀ s ∈ protocol, 0 < Prod.snd s) :
    (∀ k, k < (simulateFrom tc pc dt protocol temp0 s0).recs.length →
      ((simulateFrom tc pc dt protocol temp0 s0).recs.getD k defaultRecord).time
        = (k : ℚ) * dt) ∧
    (∀ j k, j < k → k < (simulateFrom tc pc dt protocol temp0 s0).recs.length →
      ((simulateFrom tc pc dt protocol temp0 s0).recs.getD j defaultRecord).time
        < ((simulateFrom tc pc dt protocol temp0 s0).recs.getD k defaultRecord).time) ∧
    (0 < (simulateFrom tc pc dt protocol temp0 s0).recs.length →
      ((simulateFrom tc pc dt protocol temp0 s0).recs.getD 0 defaultRecord).temperature
        = tc.ambient_temp) ∧
    (∀ k, k + 1 < (simulateFrom tc pc dt protocol temp0 s0).recs.length →
      ((simulateFrom tc pc dt protocol temp0 s0).recs.getD (k + 1)
          defaultRecord).temperature
        = thermal_update tc
            ((simulateFrom tc pc dt protocol temp0 s0).recs.getD k
              defaultRecord).temperature
            ((simulateFrom tc pc dt protocol temp0 s0).recs.getD k
              defaultRecord).control dt) ∧
    (∀ k, k < (simulateFrom tc pc dt protocol temp0 s0).recs.length →
      ((simulateFrom tc pc dt protocol temp0 s0).recs.getD k defaultRecord).error
        = ((simulateFrom tc pc dt protocol temp0 s0).recs.getD k
            defaultRecord).setpoint
          - ((simulateFrom tc pc dt protocol temp0 s0).recs.getD k
              defaultRecord).temperature) ∧
    (simulateFrom tc pc dt protocol temp0 s0).recs.length
      = (simulateFrom tc pc dt protocol temp0 s0).step ∧
    (simulateFrom tc pc dt protocol temp0 s0).step ≤ theoretical_steps protocol dt := by
  have hinv : simInv tc dt tc.ambient_temp (simulateFrom tc pc dt protocol temp0 s0) := by
    unfold simulateFrom
    apply sim_stages_inv
    refine ⟨rfl, by norm_num, ?_, ?_, rfl⟩
    · intro k hk
      exact absurd hk (Nat.not_lt_zero k)
    · intro k hk
      exact absurd hk (Nat.not_lt_zero k)
  obtain ⟨h1, h2, h3, h4, h5⟩ := hinv
  refine ⟨h3, ?_, ?_, ?_, h4, h1.symm, ?_⟩
  · intro j k hjk hk
    rw [h3 j (lt_trans hjk hk), h3 k hk]
    have hcast : (j : ℚ) < (k : ℚ) := by exact_mod_cast hjk
    exact mul_lt_mul_of_pos_right hcast hdt
  · intro hpos
    exact chainedFrom_zero tc dt _ _ _ h5 hpos
  · intro k hk
    exact chainedFrom_succ tc dt _ _ _ h5 k hk
  · unfold simulateFrom
    exact sim_stages_step_le tc pc dt _ protocol _ (Nat.zero_le _)

/-- Witness for C6 on the one-stage protocol [(30, 2)] with `dt = 1`. -/
theorem simulate_raw_series_properties_witness :
    (0 : ℚ) < 1 ∧ (∀ s ∈ [((30 : ℚ), (2 : ℚ))], 0 < Prod.snd s) ∧
    ((simulateFrom ⟨1, 0, 0, 0, 22⟩ ⟨0, 0, 0, -1, 1⟩ 1 [(30, 2)] 5 pid_reset).recs.length
        = (simulateFrom ⟨1, 0, 0, 0, 22⟩ ⟨0, 0, 0, -1, 1⟩ 1 [(30, 2)] 5 pid_reset).step ∧
      (simulateFrom ⟨1, 0, 0, 0, 22⟩ ⟨0, 0, 0, -1, 1⟩ 1 [(30, 2)] 5 pid_reset).step
        ≤ theoretical_steps [(30, 2)] 1) :=
  ⟨by norm_num,
    by
      intro s hs
      rw [List.mem_singleton] at hs
      subst hs
      norm_num,
    (simulate_raw_series_properties ⟨1, 0, 0, 0, 22⟩ ⟨0, 0, 0, -1, 1⟩ 1 [(30, 2)] 5
      pid_reset (by norm_num)
      (by
        intro s hs
        rw [List.mem_singleton] at hs
        subst hs
        norm_num)).2.2.2.2.2⟩

/-- C10: `simulate` resets the plant (to ambient) and the controller
before the stepping loop, so its result is a function of the parameters
alone: two calls with identical parameters return identical series
regardless of any plant temperature or controller state left over from
earlier calls. -/
theorem simulate_deterministic (tc : ThermalConfig) (pc : PIDConfig) (time_step : ℚ)
    (itemp idur dtemp ddur atemp adur etemp edur : ℚ) (N : ℕ)
    (ftemp fdur htemp hdur : ℚ) (t1 t2 : ℚ) (s1 s2 : PIDState) :
    simulate tc pc time_step itemp idur dtemp ddur atemp adur etemp edur N
        ftemp fdur htemp hdur t1 s1
      = simulate tc pc time_step itemp idur dtemp ddur atemp adur etemp edur N
        ftemp fdur htemp hdur t2 s2 := rfl
